import Mathlib

/-!
Verification of the SublimePythonIDE engineering core against its
natural-language specification.  Each section embeds one part of the
Python source (sublime_python.py, sublime_python_linting.py,
server/server.py, server/linter.py) as executable Lean definitions and
proves or refutes the specified properties.
-/

set_option linter.unusedVariables false

namespace SublimePythonIDE

/-! ### Supervisor retry loop (sublime_python.py, Proxy dunder getattr wrapper)

The wrapper around every forwarded RPC call is, in the source:

    result = None
    tries = 0
    while tries < RETRY_CONNECTION_LIMIT:
        try:
            result = method(args)
            break
        except Exception:
            tries += 1
            ... back off or restart ...
    return result

An attempt is modelled as a function from the try counter to
`Option A`: `none` means the transport raised, `some v` means the call
returned `v`.  The back-off/restart choice does not change the returned
value, so it is not part of the value-level model.  `retryFrom` returns
the final result together with the number of attempts that were made. -/

def RETRY_CONNECTION_LIMIT : Nat := 5

def retryFrom {A : Type} (attempt : Nat → Option A) (tries : Nat) :
    Option A × Nat :=
  if tries < RETRY_CONNECTION_LIMIT then
    match attempt tries with
    | some v => (some v, 1)
    | none =>
      let r := retryFrom attempt (tries + 1)
      (r.1, r.2 + 1)
  else (none, 0)
termination_by RETRY_CONNECTION_LIMIT - tries
decreasing_by simp_wf; omega

/-- The value returned to the caller by the Proxy wrapper, together with
the number of attempts performed. -/
def proxy_call {A : Type} (attempt : Nat → Option A) : Option A × Nat :=
  retryFrom attempt 0

lemma retryFrom_spec {A : Type} (attempt : Nat → Option A) :
    ∀ k tries, RETRY_CONNECTION_LIMIT - tries ≤ k →
      (retryFrom attempt tries).2 ≤ RETRY_CONNECTION_LIMIT - tries ∧
      ((∀ i, tries ≤ i → i < RETRY_CONNECTION_LIMIT → attempt i = none) →
        retryFrom attempt tries = (none, RETRY_CONNECTION_LIMIT - tries)) := by
  intro k
  induction k with
  | zero =>
    intro tries h
    have hge : RETRY_CONNECTION_LIMIT ≤ tries := by omega
    rw [retryFrom]
    simp only [if_neg (by omega : ¬ tries < RETRY_CONNECTION_LIMIT)]
    constructor
    · omega
    · intro _
      have : RETRY_CONNECTION_LIMIT - tries = 0 := by omega
      rw [this]
  | succ k ih =>
    intro tries h
    by_cases hlt : tries < RETRY_CONNECTION_LIMIT
    · rw [retryFrom]
      simp only [if_pos hlt]
      cases hcase : attempt tries with
      | some v =>
        dsimp only
        refine ⟨by omega, ?_⟩
        intro hall
        have := hall tries (Nat.le_refl _) hlt
        rw [hcase] at this
        exact absurd this (by simp)
      | none =>
        dsimp only
        have hk : RETRY_CONNECTION_LIMIT - (tries + 1) ≤ k := by omega
        obtain ⟨h1, h2⟩ := ih (tries + 1) hk
        refine ⟨by omega, ?_⟩
        intro hall
        have hrec := h2 (fun i hi1 hi2 => hall i (by omega) hi2)
        simp only [hrec]
        have : RETRY_CONNECTION_LIMIT - (tries + 1) + 1
            = RETRY_CONNECTION_LIMIT - tries := by omega
        rw [this]
    · rw [retryFrom]
      simp only [if_neg hlt]
      constructor
      · omega
      · intro _
        have : RETRY_CONNECTION_LIMIT - tries = 0 := by omega
        rw [this]

/-- C1: a call forwarded through the Supervisor is attempted at most
RETRY_CONNECTION_LIMIT (five) times, and when the transport fails on
every attempt the wrapper returns the initial `None` result rather than
raising. -/
theorem proxy_call_retry_ceiling {A : Type} (attempt : Nat → Option A) :
    (proxy_call attempt).2 ≤ RETRY_CONNECTION_LIMIT ∧
    ((∀ i, i < RETRY_CONNECTION_LIMIT → attempt i = none) →
      proxy_call attempt = (none, RETRY_CONNECTION_LIMIT)) := by
  have h := retryFrom_spec attempt RETRY_CONNECTION_LIMIT 0 (by omega)
  refine ⟨?_, ?_⟩
  · simpa [proxy_call] using h.1
  · intro hall
    simpa [proxy_call] using h.2 (fun i _ hi => hall i hi)

/-- Witness for C1: with a transport that always fails, the wrapper
performs exactly five attempts and returns an empty result. -/
theorem proxy_call_retry_ceiling_witness :
    proxy_call (fun _ => (none : Option Nat)) = (none, RETRY_CONNECTION_LIMIT) :=
  (proxy_call_retry_ceiling (fun _ => (none : Option Nat))).2 (fun _ _ => rfl)

/-! ### Liveness monitor (server/server.py, HeartBeatMixin and the main loop)

The worker process keeps a global `last_heartbeat` timestamp.  The
server constructor calls `heartbeat()` once at startup (time 0 in this
model), and each RPC heartbeat sets the timestamp to the current time.
The main thread runs

    while 1:
        time.sleep(HEARTBEAT_TIMEOUT)
        if time.time() - last_heartbeat > HEARTBEAT_TIMEOUT:
            sys.exit()

so checks happen at the times k * HEARTBEAT_TIMEOUT for k = 1, 2, ...
Heartbeat arrival times are modelled as a list of natural numbers; the
startup call contributes time 0. -/

def HEARTBEAT_TIMEOUT : Nat := 19

/-- Value of the global `last_heartbeat` at time `t`: the latest
heartbeat not after `t`, counting the startup heartbeat at time 0. -/
def lastHeartbeat (hb : List Nat) (t : Nat) : Nat :=
  match hb with
  | [] => 0
  | h :: rest => if h ≤ t then max h (lastHeartbeat rest t) else lastHeartbeat rest t

/-- The monitor loop wakes at exactly the positive multiples of
HEARTBEAT_TIMEOUT. -/
def isCheckTime (c : Nat) : Prop := c % HEARTBEAT_TIMEOUT = 0 ∧ c ≠ 0

/-- The condition under which the wake-up at time `c` calls sys.exit. -/
def diesAt (hb : List Nat) (c : Nat) : Prop :=
  isCheckTime c ∧ HEARTBEAT_TIMEOUT < c - lastHeartbeat hb c

instance (c : Nat) : Decidable (isCheckTime c) := by
  unfold isCheckTime; infer_instance

instance (hb : List Nat) (c : Nat) : Decidable (diesAt hb c) := by
  unfold diesAt isCheckTime; infer_instance

lemma lastHeartbeat_mono (hb : List Nat) {t t' : Nat} (h : t ≤ t') :
    lastHeartbeat hb t ≤ lastHeartbeat hb t' := by
  induction hb with
  | nil => simp [lastHeartbeat]
  | cons x rest ih =>
    simp only [lastHeartbeat]
    by_cases hx : x ≤ t
    · rw [if_pos hx, if_pos (le_trans hx h)]
      exact max_le_max (le_refl x) ih
    · rw [if_neg hx]
      by_cases hx' : x ≤ t'
      · rw [if_pos hx']
        exact le_trans ih (le_max_right _ _)
      · rw [if_neg hx']
        exact ih

lemma lastHeartbeat_le {hb : List Nat} {t L : Nat}
    (hall : ∀ h ∈ hb, h ≤ L) : lastHeartbeat hb t ≤ L := by
  induction hb with
  | nil => simp [lastHeartbeat]
  | cons x rest ih =>
    have hx := hall x (by simp)
    have hrest : ∀ h ∈ rest, h ≤ L := fun h hm => hall h (by simp [hm])
    simp only [lastHeartbeat]
    by_cases hxt : x ≤ t
    · rw [if_pos hxt]; exact max_le hx (ih hrest)
    · rw [if_neg hxt]; exact ih hrest

lemma lastHeartbeat_ge {hb : List Nat} {t h : Nat}
    (hm : h ∈ hb) (ht : h ≤ t) : h ≤ lastHeartbeat hb t := by
  induction hb with
  | nil => simp at hm
  | cons x rest ih =>
    simp only [lastHeartbeat]
    rcases List.mem_cons.mp hm with heq | hmem
    · subst heq; rw [if_pos ht]; exact le_max_left _ _
    · by_cases hxt : x ≤ t
      · rw [if_pos hxt]; exact le_trans (ih hmem) (le_max_right _ _)
      · rw [if_neg hxt]; exact ih hmem

/-- C3 (amended): the startup/heartbeat calls advance the clock; once
heartbeats stop the monitor loop does terminate the process; but the
first check that fires can be as late as 2 * HEARTBEAT_TIMEOUT after
the last heartbeat (the timeout plus one full sleep period), not
HEARTBEAT_TIMEOUT + epsilon. -/
theorem heartbeat_monitor_bounds :
    (∀ hb t h, h ∈ hb → h ≤ t → h ≤ lastHeartbeat hb t) ∧
    (∀ hb L, (∀ h ∈ hb, h ≤ L) → ∃ c, diesAt hb c) ∧
    (∀ hb c, diesAt hb c → (∀ c', c' < c → ¬ diesAt hb c') →
      c ≤ lastHeartbeat hb c + 2 * HEARTBEAT_TIMEOUT) := by
  have hT : HEARTBEAT_TIMEOUT = 19 := rfl
  refine ⟨fun hb t h hm ht => lastHeartbeat_ge hm ht, ?_, ?_⟩
  · intro hb L hall
    refine ⟨(L / 19 + 2) * 19, ⟨by rw [hT]; omega, by omega⟩, ?_⟩
    · have hlast : lastHeartbeat hb ((L / 19 + 2) * 19) ≤ L :=
        lastHeartbeat_le hall
      rw [hT]
      omega
  · intro hb c hdies hfirst
    obtain ⟨⟨hmod, hne⟩, hgap⟩ := hdies
    rw [hT] at hmod hgap ⊢
    by_cases hc1 : c = 19
    · have h0 : 0 ≤ lastHeartbeat hb c := Nat.zero_le _
      omega
    · have hcge : 38 ≤ c := by omega
      have hprev : ¬ diesAt hb (c - 19) := hfirst _ (by omega)
      have hprevCheck : isCheckTime (c - 19) := ⟨by rw [hT]; omega, by omega⟩
      have hprevGap : c - 19 - lastHeartbeat hb (c - 19) ≤ 19 := by
        by_contra hcon
        exact hprev ⟨hprevCheck, by rw [hT]; omega⟩
      have hmono : lastHeartbeat hb (c - 19) ≤ lastHeartbeat hb c :=
        lastHeartbeat_mono hb (by omega)
      omega

/-- Witness for C3: a clock advance instance, and the 2 * timeout bound
applied to the schedule with a single heartbeat at time 1, whose first
dying check is the one at time 38 = 2 * 19. -/
theorem heartbeat_monitor_bounds_witness :
    1 ≤ lastHeartbeat [1] 5 ∧
    38 ≤ lastHeartbeat [1] 38 + 2 * HEARTBEAT_TIMEOUT := by
  refine ⟨heartbeat_monitor_bounds.1 [1] 5 1 (by simp) (by omega), ?_⟩
  exact heartbeat_monitor_bounds.2.2 [1] 38 (by decide) (by decide)

/-- Counterexample for C3 as stated: with the lone heartbeat at time 1,
no check before time 38 fires, the check at time 38 fires, and the
termination delay is 37 seconds after the last heartbeat, which exceeds
HEARTBEAT_TIMEOUT by 18, so the process does not self-terminate within
HEARTBEAT_TIMEOUT + epsilon of the last heartbeat. -/
theorem heartbeat_monitor_delay_counterexample :
    (∀ c', c' < 38 → ¬ diesAt [1] c') ∧ diesAt [1] 38 ∧
    38 - lastHeartbeat [1] 38 = 2 * HEARTBEAT_TIMEOUT - 1 ∧
    HEARTBEAT_TIMEOUT + 17 < 38 - lastHeartbeat [1] 38 := by
  refine ⟨by decide, by decide, by decide, by decide⟩

/-! ### Proxy registry (sublime_python.py, proxy_for / PROXIES / PROXY_LOCK)

`proxy_for` reads the interpreter setting, defaults the empty string to
"python", and under the process-wide PROXY_LOCK either returns the
registered Proxy or constructs and registers a new one.  Because every
read and write of PROXIES happens while holding the single lock, any
concurrent execution is equivalent to some serial order of complete
`proxy_for` calls; the model therefore runs a trace of calls
sequentially.  Proxy construction is modelled as allocation of a fresh
identifier from a counter, so that two distinct constructions are
observably distinct objects. -/

def lookupStr (k : String) : List (String × Nat) → Option Nat
  | [] => none
  | (k', v) :: rest => if k = k' then some v else lookupStr k rest

lemma lookupStr_eq_none_iff (k : String) (l : List (String × Nat)) :
    lookupStr k l = none ↔ k ∉ l.map Prod.fst := by
  induction l with
  | nil => simp [lookupStr]
  | cons x rest ih =>
    simp only [lookupStr, List.map_cons, List.mem_cons]
    by_cases hk : k = x.1
    · simp [hk]
    · simp [hk, ih]

/-- The interpreter-identity normalisation in proxy_for: an empty
python_interpreter setting means the default "python". -/
def normalizeInterpreter (python : String) : String :=
  if python = "" then "python" else python

structure Registry where
  proxies : List (String × Nat)
  nextId : Nat
deriving DecidableEq

def initRegistry : Registry := { proxies := [], nextId := 0 }

/-- One `proxy_for` call: returns the Proxy (as its identifier) and the
updated registry. -/
def proxy_for (st : Registry) (setting : String) : Nat × Registry :=
  let python := normalizeInterpreter setting
  match lookupStr python st.proxies with
  | some proxy => (proxy, st)
  | none =>
    (st.nextId,
      { proxies := (python, st.nextId) :: st.proxies, nextId := st.nextId + 1 })

/-- A serialized trace of proxy_for calls: the list of returned proxies
and the final registry. -/
def runProxyCalls : List String → Registry → List Nat × Registry
  | [], st => ([], st)
  | s :: rest, st =>
    let r := proxy_for st s
    let rs := runProxyCalls rest r.2
    (r.1 :: rs.1, rs.2)

lemma proxy_for_post (st : Registry) (s : String) :
    lookupStr (normalizeInterpreter s) (proxy_for st s).2.proxies
      = some (proxy_for st s).1 := by
  unfold proxy_for
  cases hcase : lookupStr (normalizeInterpreter s) st.proxies with
  | some p => simp [hcase]
  | none => simp [hcase, lookupStr]

lemma proxy_for_preserves (st : Registry) (s : String) {k : String} {v : Nat}
    (h : lookupStr k st.proxies = some v) :
    lookupStr k (proxy_for st s).2.proxies = some v := by
  unfold proxy_for
  cases hcase : lookupStr (normalizeInterpreter s) st.proxies with
  | some p => simpa [hcase]
  | none =>
    simp only [hcase, lookupStr]
    by_cases hk : k = normalizeInterpreter s
    · rw [hk] at h; rw [h] at hcase; exact absurd hcase (by simp)
    · simpa [hk]

lemma proxy_for_nodup (st : Registry) (s : String)
    (h : (st.proxies.map Prod.fst).Nodup) :
    ((proxy_for st s).2.proxies.map Prod.fst).Nodup := by
  unfold proxy_for
  cases hcase : lookupStr (normalizeInterpreter s) st.proxies with
  | some p => simpa [hcase]
  | none =>
    simp only [hcase, List.map_cons, List.nodup_cons]
    exact ⟨(lookupStr_eq_none_iff _ _).mp hcase, h⟩

lemma runProxyCalls_preserves (ts : List String) (st : Registry)
    {k : String} {v : Nat} (h : lookupStr k st.proxies = some v) :
    lookupStr k (runProxyCalls ts st).2.proxies = some v := by
  induction ts generalizing st with
  | nil => simpa [runProxyCalls]
  | cons s rest ih =>
    simp only [runProxyCalls]
    exact ih _ (proxy_for_preserves st s h)

lemma runProxyCalls_nodup (ts : List String) (st : Registry)
    (h : (st.proxies.map Prod.fst).Nodup) :
    ((runProxyCalls ts st).2.proxies.map Prod.fst).Nodup := by
  induction ts generalizing st with
  | nil => simpa [runProxyCalls]
  | cons s rest ih =>
    simp only [runProxyCalls]
    exact ih _ (proxy_for_nodup st s h)

lemma runProxyCalls_length (ts : List String) (st : Registry) :
    (runProxyCalls ts st).1.length = ts.length := by
  induction ts generalizing st with
  | nil => simp [runProxyCalls]
  | cons s rest ih => simp [runProxyCalls, ih]

/-- Each returned proxy is the one the final registry associates with
the normalized identity of that call. -/
lemma runProxyCalls_lookup (ts : List String) (st : Registry) :
    ∀ i, i < ts.length →
      lookupStr (normalizeInterpreter (ts.getD i ""))
          (runProxyCalls ts st).2.proxies
        = some ((runProxyCalls ts st).1.getD i 0) := by
  induction ts generalizing st with
  | nil => intro i hi; simp at hi
  | cons s rest ih =>
    intro i hi
    cases i with
    | zero =>
      simp only [runProxyCalls, List.getD_cons_zero]
      exact runProxyCalls_preserves rest _ (proxy_for_post st s)
    | succ j =>
      simp only [runProxyCalls, List.getD_cons_succ]
      exact ih _ j (by simpa using hi)

/-- C2: over any serialized trace of proxy_for calls (serialization is
what PROXY_LOCK enforces), two calls with equal interpreter identities
return the same Proxy object, and the final registry holds at most one
Proxy per identity. -/
theorem proxy_for_unique_per_identity (ts : List String) (i j : Nat)
    (hi : i < ts.length) (hj : j < ts.length)
    (hk : normalizeInterpreter (ts.getD i "")
        = normalizeInterpreter (ts.getD j "")) :
    (runProxyCalls ts initRegistry).1.getD i 0
      = (runProxyCalls ts initRegistry).1.getD j 0 ∧
    ((runProxyCalls ts initRegistry).2.proxies.map Prod.fst).Nodup := by
  constructor
  · have h1 := runProxyCalls_lookup ts initRegistry i hi
    have h2 := runProxyCalls_lookup ts initRegistry j hj
    rw [hk] at h1
    rw [h1] at h2
    exact Option.some_injective _ h2
  · exact runProxyCalls_nodup ts initRegistry (by simp [initRegistry])

/-- Witness for C2: two calls with the settings "" and "python"
normalize to the same identity and return the same Proxy. -/
theorem proxy_for_unique_per_identity_witness :
    (runProxyCalls ["", "python"] initRegistry).1.getD 0 0
      = (runProxyCalls ["", "python"] initRegistry).1.getD 1 0 ∧
    ((runProxyCalls ["", "python"] initRegistry).2.proxies.map Prod.fst).Nodup :=
  proxy_for_unique_per_identity ["", "python"] 0 1 (by decide) (by decide)
    (by decide)

/-! ### Worker boundary error handling (server/server.py)

Python exceptions are modelled with `Except PyExn`.  A `Finding` is one
analysis message; for the properties below only its line number and an
identity tag are needed. -/

inductive PyExn
  | nameError
  | indexError
  | zeroDivisionError
  | keyError
  | attributeError
deriving DecidableEq, Repr

structure Finding where
  lineno : Nat
  tag : Nat
deriving DecidableEq, Repr

/-- The Binary wrapper around the pickled findings list. -/
structure Binary where
  data : List Finding
deriving DecidableEq, Repr

/-- LinterMixin.check_syntax.  The source is

    try:
        codes = do_linting(lint_settings, code, encoding, filename)
    except Exception:
        ... write traceback to stderr, assign nothing ...
    ret = Binary(pickle.dumps(codes))
    return ret

The do_linting outcome is the input: `Except.ok` is a normal return,
`Except.error` is a raised exception.  When do_linting raises, the
local `codes` is never assigned (modelled as `none`), and evaluating
`pickle.dumps(codes)` raises NameError, which propagates out of the
method as a transport-level fault. -/
def check_syntax (doLinting : Except Unit (List Finding)) :
    Except PyExn Binary :=
  let codes : Option (List Finding) :=
    match doLinting with
    | .ok cs => some cs
    | .error _ => none
  match codes with
  | some cs => .ok { data := cs }
  | none => .error .nameError

structure Proposal where
  name : String
  ptype : String
deriving DecidableEq, Repr

def _proposal_string (p : Proposal) : String :=
  p.name ++ "\t(" ++ p.ptype ++ ")"

def _insert_string (p : Proposal) : String :=
  p.name

/-- RopeFunctionsMixin.completions: any exception from the analysis
library (the `Except.error` input) is caught and turned into the empty
proposal list; the finally-block filter and formatting then run. -/
def completions (jediResult : Except Unit (List Proposal)) :
    List (String × String) :=
  let proposals : List Proposal :=
    match jediResult with
    | .ok ps => ps
    | .error _ => []
  (proposals.filter (fun p => p.name ≠ "self=")).map
    (fun p => (_proposal_string p, _insert_string p))

/-- C4 evaluation: completions converts a raised exception into the
empty list as the claim says, but check_syntax on a raising do_linting
raises NameError (unbound local `codes`) instead of returning a
serialized empty findings payload — the code-bug side of the claim. -/
theorem check_syntax_error_behavior :
    completions (.error ()) = [] ∧
    check_syntax (.error ()) = .error .nameError ∧
    ∀ payload : Binary, check_syntax (.error ()) ≠ .ok payload := by
  refine ⟨rfl, rfl, ?_⟩
  intro payload h
  exact absurd h (by simp [ check_syntax])

/-! ### The parse_errors initial sort (sublime_python_linting.py line 296
and sublime_python.py line 618)

The source line is

    errors.sort(key=cmp_to_key(lambda a, b: a.lineno < b.lineno))

`cmp_to_key` expects a three-way comparator returning a negative,
zero or positive number; the lambda returns a Python bool, which
compares as 0 or 1.  CPython list.sort is a stable sort that consults
only the strict less-than of the wrapped keys, which here is
`cmp(a, b) < 0` and therefore constantly false.  A stable sort in which
no element is strictly below another returns its input unchanged, so
the model is a stable insertion sort parameterized by that
less-than. -/

def cmpLineno (a b : Finding) : Int :=
  if a.lineno < b.lineno then 1 else 0

/-- The strict order that cmp_to_key derives from the comparator. -/
def cmpToKeyLt (a b : Finding) : Bool :=
  cmpLineno a b < 0

/-- Stable insertion of one element into an already processed prefix:
the element moves left past exactly the elements it is strictly below,
which is how a stable sort orders ties. -/
def stableInsert (lt : Finding → Finding → Bool) (x : Finding) :
    List Finding → List Finding
  | [] => [x]
  | y :: ys => if lt x y then x :: y :: ys else y :: stableInsert lt x ys

/-- CPython list.sort modelled as a stable sort over the strict key
order. -/
def pyListSort (lt : Finding → Finding → Bool) (xs : List Finding) :
    List Finding :=
  xs.foldl (fun acc x => stableInsert lt x acc) []

/-- The exact sort performed at the top of parse_errors. -/
def parse_errors_sort (errors : List Finding) : List Finding :=
  pyListSort cmpToKeyLt errors

lemma cmpToKeyLt_false (a b : Finding) : cmpToKeyLt a b = false := by
  unfold cmpToKeyLt cmpLineno
  by_cases h : a.lineno < b.lineno <;> simp [h]

lemma stableInsert_false (x : Finding) (l : List Finding) :
    stableInsert cmpToKeyLt x l = l ++ [x] := by
  induction l with
  | nil => rfl
  | cons y ys ih => simp [stableInsert, cmpToKeyLt_false, ih]

lemma parse_errors_sort_id (errors : List Finding) :
    parse_errors_sort errors = errors := by
  unfold parse_errors_sort pyListSort
  suffices h : ∀ acc, List.foldl (fun acc x => stableInsert cmpToKeyLt x acc)
      acc errors = acc ++ errors by
    simpa using h []
  induction errors with
  | nil => simp
  | cons x xs ih =>
    intro acc
    rw [List.foldl_cons, stableInsert_false, ih]
    simp

/-- C6 evaluation: the initial sort of parse_errors leaves the list
untouched, so an input whose line numbers are out of order stays out of
order: the line-288/line-21 pair below is returned as given, which is
not ascending. -/
theorem parse_errors_sort_not_ascending :
    parse_errors_sort [⟨288, 0⟩, ⟨21, 1⟩] = [⟨288, 0⟩, ⟨21, 1⟩] ∧
    ¬ List.Pairwise (fun a b => a.lineno ≤ b.lineno)
        (parse_errors_sort [⟨288, 0⟩, ⟨21, 1⟩]) := by
  refine ⟨parse_errors_sort_id _, ?_⟩
  rw [parse_errors_sort_id]
  decide

/-! ### add_message (sublime_python_linting.py lines 195-208 and
sublime_python.py lines 548-561)

Python strings are modelled as lists of characters, so that indexing,
slicing and per-character upper-casing are explicit.  The per-severity
message dict is a partial map from zero-based line number to the list
of formatted messages; the changed-lines set is a Finset. -/

def PyStr : Type := List Char
deriving DecidableEq

/-- add_message.  The source:

    lineno -= 1
    lines.add(lineno)
    message = message[0].upper() + message[1:]
    if message[-1] == '.':
        message = message[:-1]
    if lineno in messages:
        messages[lineno].append(message)
    else:
        messages[lineno] = [message]

Indexing `message[0]` on an empty string raises IndexError. -/
def add_message (lineno : Nat) (lines : Finset Nat) (message : PyStr)
    (messages : Nat → Option (List PyStr)) :
    Except PyExn (Finset Nat × (Nat → Option (List PyStr))) :=
  let lineno := lineno - 1
  let lines := insert lineno lines
  match message with
  | [] => .error .indexError
  | c :: rest =>
    let message : PyStr := Char.toUpper c :: rest
    let message : PyStr :=
      if message.getLast? = some '.' then message.dropLast else message
    let messages' : Nat → Option (List PyStr) := fun k =>
      if k = lineno then
        match messages lineno with
        | some msgs => some (msgs ++ [message])
        | none => some [message]
      else messages k
    .ok (lines, messages')

/-- The formatted message as the specification describes it: the first
character upper-cased, then one trailing period (if any) removed. -/
def specFormattedMessage (m : PyStr) : PyStr :=
  let capitalized : PyStr :=
    match m with
    | [] => []
    | c :: rest => Char.toUpper c :: rest
  if capitalized.getLast? = some '.' then capitalized.dropLast else capitalized

/-- C8: for a one-based line number n and a non-empty formatted message
m, add_message appends the capitalized, period-stripped message at the
zero-based key n-1, records n-1 in the changed-lines set, and modifies
no other map entry. -/
theorem add_message_spec (n : Nat) (lines : Finset Nat) (m : PyStr)
    (messages : Nat → Option (List PyStr)) (hm : m ≠ []) :
    ∃ lines' messages',
      add_message n lines m messages = .ok (lines', messages') ∧
      messages' (n - 1)
        = some ((messages (n - 1)).getD [] ++ [specFormattedMessage m]) ∧
      (∀ k, k ≠ n - 1 → messages' k = messages k) ∧
      lines' = insert (n - 1) lines := by
  match m with
  | [] => exact absurd rfl hm
  | c :: rest =>
    refine ⟨_, _, rfl, ?_, ?_, rfl⟩
    · simp only [specFormattedMessage]
      cases hlook : messages (n - 1) with
      | some msgs => simp [add_message, hlook]
      | none => simp [add_message, hlook]
    · intro k hk
      simp [add_message, hk]

/-- Witness for C8: the message "found.", reported on line 1, is stored
at key 0 as "Found" and line 0 is recorded. -/
theorem add_message_spec_witness :
    ∃ lines' messages',
      add_message 1 (∅ : Finset Nat) ['f', 'o', 'u', 'n', 'd', '.']
          (fun _ => none) = .ok (lines', messages') ∧
      messages' 0 = some (([] : List PyStr) ++
        [specFormattedMessage ['f', 'o', 'u', 'n', 'd', '.']]) ∧
      (∀ k, k ≠ 0 → messages' k = none) ∧
      lines' = insert 0 (∅ : Finset Nat) := by
  have h := add_message_spec 1 (∅ : Finset Nat) ['f', 'o', 'u', 'n', 'd', '.']
    (fun _ => none) (by simp)
  simpa using h

/-! ### The editor-side check cycle (sublime_python_linting.py, check)

The per-buffer Annotation State holds the three underline lists, the
three message maps and the erroneous-lines navigation list.  Underlines
are kept abstract as numbers (byte positions); messages as the
association list the dict holds. -/

structure AnnState where
  error_underlines : List Nat
  violation_underlines : List Nat
  warning_underlines : List Nat
  error_messages : List (Nat × List PyStr)
  violation_messages : List (Nat × List PyStr)
  warning_messages : List (Nat × List PyStr)
  erroneous_lines : List Nat
deriving DecidableEq

/-- Ascending natural-number insertion, used to model the Python
built-in sorted(). -/
def sortedInsertNat (x : Nat) : List Nat → List Nat
  | [] => [x]
  | y :: ys => if x < y then x :: y :: ys else y :: sortedInsertNat x ys

/-- sorted(set(l)): duplicates removed, then ascending order. -/
def sortedSet (l : List Nat) : List Nat :=
  l.dedup.foldl (fun acc x => sortedInsertNat x acc) []

/-- The response `check` receives from proxy.check_syntax, by shape:
a falsy result (the None a failed Proxy call returns), a truthy Binary
whose pickled payload either decodes to a findings list or fails to
decode, or a truthy object of some other shape (accessing `.data` on it
raises AttributeError). -/
inductive LintResponse
  | noResponse
  | binaryPayload (decoded : Option (List Finding))
  | wrongShape

/-- One execution of `check` for one buffer, at the level of the stored
Annotation State.  `parseEff` stands for the effect of parse_errors on
the cleared state (the claim under study only concerns the failure
branches, which never reach it).  The source structure:

    errors = proxy.check_syntax(code, encoding, lint_settings, filename)
    try:
        if errors:
            errors = pickle.loads(errors.data)   # may raise
        ... clear the six per-vid entries ...
        if errors:
            parse_errors(view, errors, lines, vid)
        erroneous_lines[vid] = ListWithPointer(sorted(set(keys of the
            three message maps)))
        ...
    except Exception as error:
        print(...)   # state left as it was when the exception was raised
-/
def checkCycle (parseEff : List Finding → AnnState → AnnState)
    (resp : LintResponse) (s : AnnState) : AnnState :=
  match resp with
  | .wrongShape => s
  | .binaryPayload none => s
  | .noResponse =>
    let s1 : AnnState :=
      { s with
        error_underlines := [], error_messages := []
        violation_underlines := [], violation_messages := []
        warning_underlines := [], warning_messages := [] }
    { s1 with
      erroneous_lines := sortedSet
        (s1.error_messages.map Prod.fst ++ s1.violation_messages.map Prod.fst
          ++ s1.warning_messages.map Prod.fst) }
  | .binaryPayload (some errs) =>
    let s1 : AnnState :=
      { s with
        error_underlines := [], error_messages := []
        violation_underlines := [], violation_messages := []
        warning_underlines := [], warning_messages := [] }
    let s2 := parseEff errs s1
    { s2 with
      erroneous_lines := sortedSet
        (s2.error_messages.map Prod.fst ++ s2.violation_messages.map Prod.fst
          ++ s2.warning_messages.map Prod.fst) }

/-- C5 (amended): a check cycle whose response is a truthy value that
fails to deserialize — pickle.loads raises, or the object has the wrong
shape so that accessing its data raises — leaves the Annotation State
exactly unchanged; but a falsy (None) response resets the whole state
to empty instead. -/
theorem undeserializable_response_state (parseEff : List Finding → AnnState → AnnState)
    (s : AnnState) :
    checkCycle parseEff (.binaryPayload none) s = s ∧
    checkCycle parseEff .wrongShape s = s ∧
    checkCycle parseEff .noResponse s =
      { error_underlines := [], violation_underlines := []
        warning_underlines := [], error_messages := []
        violation_messages := [], warning_messages := []
        erroneous_lines := [] } := by
  refine ⟨rfl, rfl, rfl⟩

/-- Counterexample for C5 as stated: a buffer with one prior warning
annotation receives a None response (a response that cannot be
deserialized); the claim says the prior Annotation State is left
exactly unchanged, but the cycle clears it. -/
theorem none_response_clears_state :
    checkCycle (fun _ s => s) .noResponse
        { error_underlines := [], violation_underlines := []
          warning_underlines := [3], error_messages := []
          violation_messages := []
          warning_messages := [(3, [['l', 'o', 'n', 'g']])]
          erroneous_lines := [3] }
      ≠ { error_underlines := [], violation_underlines := []
          warning_underlines := [3], error_messages := []
          violation_messages := []
          warning_messages := [(3, [['l', 'o', 'n', 'g']])]
          erroneous_lines := [3] } := by
  decide

/-! ### ListWithPointer (sublime_python_linting.py lines 494-518)

The type carries the stored list, the shared pointer and the direction
flag (FORWARD = 0, BACKWARD = 1).  Python semantics that matter here
are modelled explicitly: `%` on integers raises ZeroDivisionError for a
zero modulus and otherwise returns a result with the sign of the
modulus (Int.emod), and indexing accepts negative indices from the end
and raises IndexError out of range.  Each operation returns its result
or exception together with the object state at that moment, since the
source mutates fields before the point where an exception can be
raised. -/

def FORWARD : Nat := 0

def BACKWARD : Nat := 1

structure ListWithPointer where
  data : List Int
  pointer : Int
  direction : Nat
deriving DecidableEq, Repr

deriving instance DecidableEq for Except

/-- ListWithPointer(data): pointer 0, direction FORWARD. -/
def ListWithPointer.init (data : List Int) : ListWithPointer :=
  { data := data, pointer := 0, direction := FORWARD }

/-- Python integer %, raising on a zero modulus. -/
def pymod (a n : Int) : Except PyExn Int :=
  if n = 0 then .error .zeroDivisionError else .ok (Int.emod a n)

/-- Python list indexing with negative-index support. -/
def pyGetItem (xs : List Int) (i : Int) : Except PyExn Int :=
  let j : Int := if i < 0 then i + xs.length else i
  if 0 ≤ j then
    match xs.get? j.toNat with
    | some v => .ok v
    | none => .error .indexError
  else .error .indexError

/-- The body of next() after the direction correction:

    result = self.__getitem__(self.pointer)
    self.pointer = (self.pointer + 1) % len(self)
    return result
-/
def ListWithPointer.nextBody (s : ListWithPointer) :
    Except PyExn Int × ListWithPointer :=
  match pyGetItem s.data s.pointer with
  | .error e => (.error e, s)
  | .ok result =>
    match pymod (s.pointer + 1) s.data.length with
    | .error e => (.error e, s)
    | .ok p => (.ok result, { s with pointer := p })

/-- next():

    if self.direction == self.BACKWARD:
        self.direction = self.FORWARD
        self.pointer = (self.pointer + 1) % len(self)
    ... body ...
-/
def ListWithPointer.next (s : ListWithPointer) :
    Except PyExn Int × ListWithPointer :=
  if s.direction = BACKWARD then
    let s := { s with direction := FORWARD }
    match pymod (s.pointer + 1) s.data.length with
    | .error e => (.error e, s)
    | .ok p => ListWithPointer.nextBody { s with pointer := p }
  else ListWithPointer.nextBody s

/-- The body of previous() after the direction correction:

    self.pointer = (self.pointer - 1) % len(self)
    result = self.__getitem__(self.pointer)
    return result
-/
def ListWithPointer.prevBody (s : ListWithPointer) :
    Except PyExn Int × ListWithPointer :=
  match pymod (s.pointer - 1) s.data.length with
  | .error e => (.error e, s)
  | .ok p =>
    let s := { s with pointer := p }
    match pyGetItem s.data s.pointer with
    | .error e => (.error e, s)
    | .ok result => (.ok result, s)

/-- previous():

    if self.direction == self.FORWARD:
        self.direction = self.BACKWARD
        self.pointer = (self.pointer - 1) % len(self)
    ... body ...
-/
def ListWithPointer.previous (s : ListWithPointer) :
    Except PyExn Int × ListWithPointer :=
  if s.direction = FORWARD then
    let s := { s with direction := BACKWARD }
    match pymod (s.pointer - 1) s.data.length with
    | .error e => (.error e, s)
    | .ok p => ListWithPointer.prevBody { s with pointer := p }
  else ListWithPointer.prevBody s

/-- C7 (amended): on [2, 5, 9] from pointer 0 and FORWARD, three next()
calls return 2, 5, 9 and a fourth wraps to 2; but reversing direction
does not re-visit the just-returned element: previous() immediately
after the first next() returns 9 (the cyclic predecessor of 2), and,
after next() has returned 2 and 5 and previous() has moved back to 2,
the following next() returns 5 (the cyclic successor of 2). -/
theorem list_with_pointer_navigation :
    (ListWithPointer.init [2, 5, 9]).next.1 = .ok 2 ∧
    (ListWithPointer.init [2, 5, 9]).next.2.next.1 = .ok 5 ∧
    (ListWithPointer.init [2, 5, 9]).next.2.next.2.next.1 = .ok 9 ∧
    (ListWithPointer.init [2, 5, 9]).next.2.next.2.next.2.next.1 = .ok 2 ∧
    (ListWithPointer.init [2, 5, 9]).next.2.previous.1 = .ok 9 ∧
    (ListWithPointer.init [2, 5, 9]).next.2.next.2.previous.1 = .ok 2 ∧
    (ListWithPointer.init [2, 5, 9]).next.2.next.2.previous.2.next.1 = .ok 5 := by
  refine ⟨by decide, by decide, by decide, by decide, by decide, by decide,
    by decide⟩

/-- Counterexample for C7 as stated: previous() immediately after the
first next() on [2, 5, 9] returns 9, not the just-returned element
2 — the direction correction skips past the re-visit instead of
performing it. -/
theorem previous_after_next_no_revisit :
    (ListWithPointer.init [2, 5, 9]).next.2.previous.1 ≠
      (.ok 2 : Except PyExn Int) := by
  decide

lemma pymod_bounds {a n : Int} (hn : 0 < n) :
    pymod a n = .ok (Int.emod a n) ∧ 0 ≤ Int.emod a n ∧ Int.emod a n < n := by
  refine ⟨by unfold pymod; rw [if_neg (by omega)], Int.emod_nonneg a (by omega),
    Int.emod_lt_of_pos a hn⟩

lemma pyGetItem_mem (xs : List Int) (i : Int) (h0 : 0 ≤ i)
    (hlen : i < xs.length) : ∃ v ∈ xs, pyGetItem xs i = .ok v := by
  unfold pyGetItem
  rw [if_neg (by omega : ¬ i < 0), if_pos h0]
  have hnat : i.toNat < xs.length := by omega
  cases hget : xs.get? i.toNat with
  | none =>
    rw [List.get?_eq_none] at hget
    omega
  | some v =>
    exact ⟨v, List.get?_mem hget, rfl⟩

/-- C10 (amended): on an empty list next() in the initial FORWARD state
fails with IndexError (the element access happens before the modulo),
while previous(), and next() in BACKWARD state, fail with
ZeroDivisionError; no call on an empty list returns a value.  Under the
precondition that the list is non-empty and the pointer is in bounds,
every call returns an element of the list and leaves the pointer within
bounds. -/
theorem list_with_pointer_safety (s : ListWithPointer)
    (hne : s.data ≠ []) (hlo : 0 ≤ s.pointer)
    (hhi : s.pointer < s.data.length) :
    ((ListWithPointer.init []).next.1 = .error .indexError ∧
      (ListWithPointer.init []).previous.1 = .error .zeroDivisionError ∧
      ({ data := [], pointer := 0, direction := BACKWARD } :
          ListWithPointer).next.1 = .error .zeroDivisionError) ∧
    (∃ v ∈ s.data, ∃ s', s.next = (.ok v, s') ∧
      0 ≤ s'.pointer ∧ s'.pointer < s'.data.length) ∧
    (∃ v ∈ s.data, ∃ s', s.previous = (.ok v, s') ∧
      0 ≤ s'.pointer ∧ s'.pointer < s'.data.length) := by
  obtain ⟨data, ptr, dir⟩ := s
  dsimp only at hne hlo hhi
  have hpos : 0 < (data.length : Int) := by
    have : data.length ≠ 0 := fun h => hne (List.eq_nil_of_length_eq_zero h)
    omega
  refine ⟨⟨by decide, by decide, by decide⟩, ?_, ?_⟩
  · unfold ListWithPointer.next
    dsimp only
    by_cases hdir : dir = BACKWARD
    · rw [if_pos hdir]
      obtain ⟨hmod, hm0, hml⟩ := pymod_bounds (a := ptr + 1) hpos
      rw [hmod]
      unfold ListWithPointer.nextBody
      dsimp only
      obtain ⟨v, hv, hget⟩ := pyGetItem_mem data _ hm0 hml
      rw [hget]
      obtain ⟨hmod2, hm20, hm2l⟩ :=
        pymod_bounds (a := Int.emod (ptr + 1) data.length + 1) hpos
      rw [hmod2]
      exact ⟨v, hv, _, rfl, hm20, hm2l⟩
    · rw [if_neg hdir]
      unfold ListWithPointer.nextBody
      dsimp only
      obtain ⟨v, hv, hget⟩ := pyGetItem_mem data _ hlo hhi
      rw [hget]
      obtain ⟨hmod, hm0, hml⟩ := pymod_bounds (a := ptr + 1) hpos
      rw [hmod]
      exact ⟨v, hv, _, rfl, hm0, hml⟩
  · unfold ListWithPointer.previous
    dsimp only
    by_cases hdir : dir = FORWARD
    · rw [if_pos hdir]
      obtain ⟨hmod, hm0, hml⟩ := pymod_bounds (a := ptr - 1) hpos
      rw [hmod]
      unfold ListWithPointer.prevBody
      dsimp only
      obtain ⟨hmod2, hm20, hm2l⟩ :=
        pymod_bounds (a := Int.emod (ptr - 1) data.length - 1) hpos
      rw [hmod2]
      dsimp only
      obtain ⟨v, hv, hget⟩ := pyGetItem_mem data _ hm20 hm2l
      rw [hget]
      exact ⟨v, hv, _, rfl, hm20, hm2l⟩
    · rw [if_neg hdir]
      unfold ListWithPointer.prevBody
      dsimp only
      obtain ⟨hmod, hm0, hml⟩ := pymod_bounds (a := ptr - 1) hpos
      rw [hmod]
      dsimp only
      obtain ⟨v, hv, hget⟩ := pyGetItem_mem data _ hm0 hml
      rw [hget]
      exact ⟨v, hv, _, rfl, hm0, hml⟩

/-- Witness for C10: the singleton navigation list [7] with pointer 0
in the FORWARD direction satisfies the preconditions, and both calls
return 7 with the pointer back in bounds. -/
theorem list_with_pointer_safety_witness :
    ((ListWithPointer.init []).next.1 = .error .indexError ∧
      (ListWithPointer.init []).previous.1 = .error .zeroDivisionError ∧
      ({ data := [], pointer := 0, direction := BACKWARD } :
          ListWithPointer).next.1 = .error .zeroDivisionError) ∧
    (∃ v ∈ [(7 : Int)], ∃ s', (ListWithPointer.init [7]).next = (.ok v, s') ∧
      0 ≤ s'.pointer ∧ s'.pointer < s'.data.length) ∧
    (∃ v ∈ [(7 : Int)], ∃ s', (ListWithPointer.init [7]).previous = (.ok v, s') ∧
      0 ≤ s'.pointer ∧ s'.pointer < s'.data.length) :=
  list_with_pointer_safety (ListWithPointer.init [7]) (by decide) (by decide)
    (by decide)

/-- Counterexample for C10 as stated: on the empty list in the initial
FORWARD state, next() fails with IndexError — the element access of
the body is evaluated before any modulo — not with the claimed
modulo-by-zero. -/
theorem next_on_empty_not_zero_division :
    (ListWithPointer.init []).next.1 = .error .indexError ∧
    (ListWithPointer.init []).next.1 ≠ .error .zeroDivisionError := by
  refine ⟨by decide, by decide⟩

/-! ### Worker-side session manager (server/server.py, RopeProjectMixin)

`project_for(project_path, file_path, source)` keys the projects dict
by the BUFFER: synthetic identifier, by the file path (single-file
case, where project_path is the NO_ROOT_PATH sentinel -1), or by the
project root path.  Project construction is modelled as allocation of
a fresh identifier, temp-file creation as allocation of a fresh name;
the KeyError that `self.buffer_tmpfile_map[file_path]` would raise on a
missing key is modelled explicitly.  Python str.startswith is modelled
on the character lists (String.startsWith does not reduce in the
kernel). -/

def pyStartsWith (s pre : String) : Bool :=
  pre.toList.isPrefixOf s.toList

inductive ProjectPath
  | noRoot
  | path (p : String)
deriving DecidableEq, Repr

def lookupTmp (k : String) : List (String × String) → Option String
  | [] => none
  | (k', v) :: rest => if k = k' then some v else lookupTmp k rest

structure ServerState where
  projects : List (String × Nat)
  buffer_tmpfile_map : List (String × String)
  tempfiles : List String
  nextProject : Nat
  nextTemp : Nat
deriving DecidableEq, Repr

def initServerState : ServerState :=
  { projects := [], buffer_tmpfile_map := [], tempfiles := []
    nextProject := 0, nextTemp := 0 }

/-- tempfile.NamedTemporaryFile(delete=False): a fresh name, recorded in
self.tempfiles. -/
def _create_temp_file (st : ServerState) (source : String) :
    String × ServerState :=
  ("TMP" ++ toString st.nextTemp,
    { st with tempfiles := st.tempfiles ++ ["TMP" ++ toString st.nextTemp]
              nextTemp := st.nextTemp + 1 })

/-- rope Project construction for a root directory: a fresh context
object. -/
def _create_project (st : ServerState) (path : String) : Nat × ServerState :=
  (st.nextProject, { st with nextProject := st.nextProject + 1 })

/-- rope Project construction for a single-file pseudo-project: a fresh
context object. -/
def _create_single_file_project (st : ServerState) (path : String) :
    Nat × ServerState :=
  (st.nextProject, { st with nextProject := st.nextProject + 1 })

/-- RopeProjectMixin.project_for, returning the (project, file_path)
pair of the source together with the updated state. -/
def project_for (st : ServerState) (project_path : ProjectPath)
    (file_path : String) (source : String) :
    Except PyExn (Nat × String) × ServerState :=
  if pyStartsWith file_path "BUFFER:" then
    match lookupStr file_path st.projects with
    | some project =>
      match lookupTmp file_path st.buffer_tmpfile_map with
      | some tf => (.ok (project, tf), st)
      | none => (.error .keyError, st)
    | none =>
      let r1 := _create_temp_file st source
      let r2 := _create_single_file_project r1.2 r1.1
      (.ok (r2.1, r1.1),
        { r2.2 with
            projects := (file_path, r2.1) :: r2.2.projects
            buffer_tmpfile_map := (file_path, r1.1) :: r2.2.buffer_tmpfile_map })
  else
    match project_path with
    | .noRoot =>
      match lookupStr file_path st.projects with
      | some project => (.ok (project, file_path), st)
      | none =>
        if file_path = "" then
          let r1 := _create_temp_file st source
          let r2 := _create_single_file_project r1.2 r1.1
          (.ok (r2.1, r1.1), r2.2)
        else
          let r := _create_single_file_project st file_path
          (.ok (r.1, file_path),
            { r.2 with projects := (file_path, r.1) :: r.2.projects })
    | .path p =>
      match lookupStr p st.projects with
      | some project => (.ok (project, file_path), st)
      | none =>
        let r := _create_project st p
        (.ok (r.1, file_path),
          { r.2 with projects := (p, r.1) :: r.2.projects })

/-- One request arriving at the session manager. -/
structure PCall where
  project_path : ProjectPath
  file_path : String
  source : String
deriving DecidableEq, Repr

/-- The cache key a call addresses. -/
def keyOf (c : PCall) : String :=
  if pyStartsWith c.file_path "BUFFER:" then c.file_path
  else
    match c.project_path with
    | .noRoot => c.file_path
    | .path p => p

/-- The deprecated single-file branch: NO_ROOT_PATH together with an
empty file path. -/
def isDeprecatedCall (c : PCall) : Prop :=
  c.project_path = ProjectPath.noRoot ∧ c.file_path = ""

instance (c : PCall) : Decidable (isDeprecatedCall c) := by
  unfold isDeprecatedCall; infer_instance

/-- Project roots are directory paths, never BUFFER: identifiers. -/
def WfCall (c : PCall) : Prop :=
  ∀ p, c.project_path = ProjectPath.path p → pyStartsWith p "BUFFER:" = false

instance (c : PCall) : Decidable (WfCall c) :=
  match h : c.project_path with
  | ProjectPath.noRoot =>
    isTrue (by intro p hp; rw [h] at hp; cases hp)
  | ProjectPath.path q =>
    if hq : pyStartsWith q "BUFFER:" = false then
      isTrue (by intro p hp; rw [h] at hp; injection hp with he; rw [← he]; exact hq)
    else
      isFalse (fun hall => hq (hall q h))

/-- Joint invariant of the two dicts: every BUFFER: key of the projects
dict also has a tmpfile entry (they are always written together). -/
def BufInv (st : ServerState) : Prop :=
  ∀ k v, lookupStr k st.projects = some v → pyStartsWith k "BUFFER:" = true →
    (lookupTmp k st.buffer_tmpfile_map).isSome = true

/-- The project identifier a call returned, if it did not raise. -/
def projOf (r : Except PyExn (Nat × String)) : Option Nat :=
  match r with
  | .ok v => some v.1
  | .error _ => none

def runProjectCalls : List PCall → ServerState →
    List (Except PyExn (Nat × String)) × ServerState
  | [], st => ([], st)
  | c :: rest, st =>
    let r := project_for st c.project_path c.file_path c.source
    let rs := runProjectCalls rest r.2
    (r.1 :: rs.1, rs.2)

lemma lookupTmp_cons_isSome (k k0 v0 : String) (l : List (String × String))
    (h : (lookupTmp k l).isSome = true) :
    (lookupTmp k ((k0, v0) :: l)).isSome = true := by
  simp only [lookupTmp]
  by_cases hk : k = k0 <;> simp [hk, h]

lemma project_for_preserves_proj (st : ServerState) (pp : ProjectPath)
    (fp src : String) {k : String} {v : Nat}
    (h : lookupStr k st.projects = some v) :
    lookupStr k (project_for st pp fp src).2.projects = some v := by
  unfold project_for _create_temp_file _create_single_file_project _create_project
  dsimp only
  split
  · split
    · split
      · exact h
      · exact h
    · rename_i hnone
      simp only [lookupStr]
      by_cases hk : k = fp
      · rw [hk] at h
        rw [h] at hnone
        exact absurd hnone (by simp)
      · simp [hk, h]
  · split
    · split
      · exact h
      · rename_i hnone
        split
        · exact h
        · simp only [lookupStr]
          by_cases hk : k = fp
          · rw [hk] at h
            rw [h] at hnone
            exact absurd hnone (by simp)
          · simp [hk, h]
    · rename_i pstr
      split
      · exact h
      · rename_i hnone
        simp only [lookupStr]
        by_cases hk : k = pstr
        · rw [hk] at h
          rw [h] at hnone
          exact absurd hnone (by simp)
        · simp [hk, h]

lemma project_for_inv (st : ServerState) (pp : ProjectPath) (fp src : String)
    (hinv : BufInv st)
    (hwf : ∀ p, pp = ProjectPath.path p → pyStartsWith p "BUFFER:" = false) :
    BufInv (project_for st pp fp src).2 := by
  unfold BufInv
  unfold project_for _create_temp_file _create_single_file_project _create_project
  dsimp only
  split
  · rename_i hb
    split
    · split
      · exact hinv
      · exact hinv
    · rename_i hnone
      intro k v hlook hbuf
      dsimp only at hlook ⊢
      simp only [lookupStr] at hlook
      simp only [lookupTmp]
      by_cases hk : k = fp
      · simp [hk]
      · rw [if_neg hk] at hlook
        rw [if_neg hk]
        exact hinv k v hlook hbuf
  · rename_i hb
    split
    · split
      · exact hinv
      · rename_i hnone
        split
        · exact hinv
        · intro k v hlook hbuf
          dsimp only at hlook ⊢
          simp only [lookupStr] at hlook
          by_cases hk : k = fp
          · subst hk
            exact absurd hbuf hb
          · rw [if_neg hk] at hlook
            exact hinv k v hlook hbuf
    · rename_i pstr
      split
      · exact hinv
      · rename_i hnone
        intro k v hlook hbuf
        dsimp only at hlook ⊢
        simp only [lookupStr] at hlook
        by_cases hk : k = pstr
        · subst hk
          have hfalse := hwf k rfl
          rw [hbuf] at hfalse
          exact absurd hfalse (by simp)
        · rw [if_neg hk] at hlook
          exact hinv k v hlook hbuf

lemma project_for_nodup_keys (st : ServerState) (pp : ProjectPath)
    (fp src : String) (h : (st.projects.map Prod.fst).Nodup) :
    ((project_for st pp fp src).2.projects.map Prod.fst).Nodup := by
  unfold project_for _create_temp_file _create_single_file_project _create_project
  dsimp only
  split
  · split
    · split
      · exact h
      · exact h
    · rename_i hnone
      simp only [List.map_cons, List.nodup_cons]
      exact ⟨(lookupStr_eq_none_iff _ _).mp hnone, h⟩
  · split
    · split
      · exact h
      · rename_i hnone
        split
        · exact h
        · simp only [List.map_cons, List.nodup_cons]
          exact ⟨(lookupStr_eq_none_iff _ _).mp hnone, h⟩
    · rename_i pstr
      split
      · exact h
      · rename_i hnone
        simp only [List.map_cons, List.nodup_cons]
        exact ⟨(lookupStr_eq_none_iff _ _).mp hnone, h⟩

lemma project_for_post (st : ServerState) (c : PCall) (hinv : BufInv st)
    (hwf : WfCall c) (hdep : ¬ isDeprecatedCall c) :
    ∃ p, lookupStr (keyOf c)
        (project_for st c.project_path c.file_path c.source).2.projects
        = some p ∧
      projOf (project_for st c.project_path c.file_path c.source).1 = some p := by
  obtain ⟨pp, fp, src⟩ := c
  dsimp only at hwf hdep ⊢
  by_cases hb : pyStartsWith fp "BUFFER:" = true
  · have hkey : keyOf ⟨pp, fp, src⟩ = fp := by simp [keyOf, hb]
    rw [hkey]
    unfold project_for _create_temp_file _create_single_file_project
      _create_project
    dsimp only
    rw [if_pos hb]
    cases hlp : lookupStr fp st.projects with
    | some project =>
      cases hlt : lookupTmp fp st.buffer_tmpfile_map with
      | some tf => exact ⟨project, by simp [hlp], rfl⟩
      | none =>
        have hsome := hinv fp project hlp hb
        rw [hlt] at hsome
        simp at hsome
    | none =>
      refine ⟨st.nextProject, ?_, rfl⟩
      simp [lookupStr]
  · cases pp with
    | noRoot =>
      have hkey : keyOf ⟨ProjectPath.noRoot, fp, src⟩ = fp := by
        simp [keyOf, hb]
      rw [hkey]
      unfold project_for _create_temp_file _create_single_file_project
        _create_project
      dsimp only
      rw [if_neg hb]
      cases hlp : lookupStr fp st.projects with
      | some project => exact ⟨project, by simp [hlp], rfl⟩
      | none =>
        have hfp : ¬ fp = "" := fun h => hdep ⟨rfl, h⟩
        rw [if_neg hfp]
        refine ⟨st.nextProject, ?_, rfl⟩
        simp [lookupStr]
    | path pstr =>
      have hkey : keyOf ⟨ProjectPath.path pstr, fp, src⟩ = pstr := by
        simp [keyOf, hb]
      rw [hkey]
      unfold project_for _create_temp_file _create_single_file_project
        _create_project
      dsimp only
      rw [if_neg hb]
      cases hlp : lookupStr pstr st.projects with
      | some project => exact ⟨project, by simp [hlp], rfl⟩
      | none =>
        refine ⟨st.nextProject, ?_, rfl⟩
        simp [lookupStr]

def defaultPCall : PCall :=
  { project_path := ProjectPath.noRoot, file_path := "x", source := "" }

lemma runProjectCalls_preserves (ts : List PCall) (st : ServerState)
    {k : String} {v : Nat} (h : lookupStr k st.projects = some v) :
    lookupStr k (runProjectCalls ts st).2.projects = some v := by
  induction ts generalizing st with
  | nil => simpa [runProjectCalls]
  | cons c rest ih =>
    simp only [runProjectCalls]
    exact ih _ (project_for_preserves_proj st c.project_path c.file_path
      c.source h)

lemma runProjectCalls_inv (ts : List PCall) (st : ServerState)
    (hwf : ∀ c ∈ ts, WfCall c) (hinv : BufInv st) :
    BufInv (runProjectCalls ts st).2 := by
  induction ts generalizing st with
  | nil => simpa [runProjectCalls]
  | cons c rest ih =>
    simp only [runProjectCalls]
    exact ih _ (fun c' hc' => hwf c' (List.mem_cons_of_mem _ hc'))
      (project_for_inv st c.project_path c.file_path c.source hinv
        (fun p hp => hwf c (by simp) p hp))

lemma runProjectCalls_nodup (ts : List PCall) (st : ServerState)
    (h : (st.projects.map Prod.fst).Nodup) :
    ((runProjectCalls ts st).2.projects.map Prod.fst).Nodup := by
  induction ts generalizing st with
  | nil => simpa [runProjectCalls]
  | cons c rest ih =>
    simp only [runProjectCalls]
    exact ih _ (project_for_nodup_keys st c.project_path c.file_path c.source h)

lemma runProjectCalls_lookup (ts : List PCall) (st : ServerState)
    (hwf : ∀ c ∈ ts, WfCall c) (hinv : BufInv st) :
    ∀ i, i < ts.length → ¬ isDeprecatedCall (ts.getD i defaultPCall) →
      ∃ p, lookupStr (keyOf (ts.getD i defaultPCall))
          (runProjectCalls ts st).2.projects = some p ∧
        projOf ((runProjectCalls ts st).1.getD i (.error .keyError)) = some p := by
  induction ts generalizing st with
  | nil => intro i hi; simp at hi
  | cons c rest ih =>
    intro i hi hdep
    cases i with
    | zero =>
      simp only [List.getD_cons_zero] at hdep ⊢
      obtain ⟨p, hlook, hout⟩ := project_for_post st c hinv (hwf c (by simp)) hdep
      refine ⟨p, ?_, ?_⟩
      · simp only [runProjectCalls]
        exact runProjectCalls_preserves rest _ hlook
      · simp only [runProjectCalls, List.getD_cons_zero]
        exact hout
    | succ j =>
      simp only [List.getD_cons_succ] at hdep ⊢
      simp only [runProjectCalls, List.getD_cons_succ]
      exact ih _ (fun c' hc' => hwf c' (by simp [hc']))
        (project_for_inv st c.project_path c.file_path c.source hinv
          (fun p hp => hwf c (by simp) p hp))
        j (by simpa using hi) hdep

/-- C9 (amended): over any trace of project_for calls whose project
roots are real paths (not BUFFER: identifiers), and excluding the
deprecated NO_ROOT_PATH-with-empty-file-path branch, two calls
addressing the same cache key receive the same Project Context, and the
final projects dict holds at most one context per key.  The deprecated
branch itself creates a fresh, uncached context on every call (see the
counterexample). -/
theorem project_for_unique_per_key (ts : List PCall) (i j : Nat)
    (hi : i < ts.length) (hj : j < ts.length)
    (hwf : ∀ c ∈ ts, WfCall c)
    (hdi : ¬ isDeprecatedCall (ts.getD i defaultPCall))
    (hdj : ¬ isDeprecatedCall (ts.getD j defaultPCall))
    (hk : keyOf (ts.getD i defaultPCall) = keyOf (ts.getD j defaultPCall)) :
    (∃ p, projOf ((runProjectCalls ts initServerState).1.getD i
            (.error .keyError)) = some p ∧
          projOf ((runProjectCalls ts initServerState).1.getD j
            (.error .keyError)) = some p) ∧
    ((runProjectCalls ts initServerState).2.projects.map Prod.fst).Nodup := by
  have hinv : BufInv initServerState := by
    intro k v hlook
    simp [initServerState, lookupStr] at hlook
  constructor
  · obtain ⟨p, hlook1, hout1⟩ :=
      runProjectCalls_lookup ts initServerState hwf hinv i hi hdi
    obtain ⟨q, hlook2, hout2⟩ :=
      runProjectCalls_lookup ts initServerState hwf hinv j hj hdj
    rw [hk] at hlook1
    rw [hlook1] at hlook2
    obtain rfl : p = q := Option.some_injective _ hlook2
    exact ⟨p, hout1, hout2⟩
  · exact runProjectCalls_nodup ts initServerState (by simp [initServerState])

/-- Witness for C9: two files of the same project root receive the same
Project Context, namely the one allocated by the first call. -/
theorem project_for_unique_per_key_witness :
    (∃ p, projOf ((runProjectCalls
        [ { project_path := ProjectPath.path "/r", file_path := "/r/a.py"
            source := "" },
          { project_path := ProjectPath.path "/r", file_path := "/r/b.py"
            source := "" } ] initServerState).1.getD 0
          (.error .keyError)) = some p ∧
      projOf ((runProjectCalls
        [ { project_path := ProjectPath.path "/r", file_path := "/r/a.py"
            source := "" },
          { project_path := ProjectPath.path "/r", file_path := "/r/b.py"
            source := "" } ] initServerState).1.getD 1
          (.error .keyError)) = some p) ∧
    ((runProjectCalls
        [ { project_path := ProjectPath.path "/r", file_path := "/r/a.py"
            source := "" },
          { project_path := ProjectPath.path "/r", file_path := "/r/b.py"
            source := "" } ] initServerState).2.projects.map Prod.fst).Nodup :=
  project_for_unique_per_key
    [ { project_path := ProjectPath.path "/r", file_path := "/r/a.py"
        source := "" },
      { project_path := ProjectPath.path "/r", file_path := "/r/b.py"
        source := "" } ]
    0 1 (by decide) (by decide) (by decide) (by decide) (by decide) (by decide)

/-- Counterexample for C9 as stated: two calls with the NO_ROOT_PATH
sentinel and the empty file path — a legal key per the specification —
create two distinct Project Contexts (identifiers 0 and 1), because the
deprecated branch caches nothing. -/
theorem project_for_empty_path_counterexample :
    projOf (project_for initServerState ProjectPath.noRoot "" "x = 1").1
      = some 0 ∧
    projOf (project_for
        (project_for initServerState ProjectPath.noRoot "" "x = 1").2
        ProjectPath.noRoot "" "x = 1").1 = some 1 ∧
    some 0 ≠ some 1 := by
  refine ⟨by decide, by decide, by decide⟩

end SublimePythonIDE
